import Mathlib

/-!
Shallow embedding of the `stlish` fixed-size array container and its
iterator machinery (include/stlish/iterator.hpp, include/stlish/array.hpp).

Modelling choices:
* A C++ pointer into an array's storage is modelled as a pair of the memory
  it can dereference (`mem : Int → T`, the whole storage block as a total
  function) and its address `ptr_ : Int` (offset from the storage base).
  Arithmetic and comparison touch only `ptr_`, exactly as the source
  operates on the raw pointer; dereference reads `mem` at `ptr_`.
* `std::size_t` indices are `Nat`, `std::ptrdiff_t` distances are `Int`.
* `at` throws `std::out_of_range`; it is modelled with `Except String`.
* Loops (`fill`, `swap`, `std::equal`,
  `std::lexicographical_compare_three_way`) become structural recursion on
  the trip count, preserving the source's left-to-right order of writes
  and comparisons.
-/

namespace stlish

/-- Three-way comparison (C++ `operator<=>`) of two pointers/integers,
yielding a strong ordering. -/
def intCompare (x y : Int) : Ordering :=
  if x < y then Ordering.lt else if x = y then Ordering.eq else Ordering.gt

/-- `stlish::array_iterator<T, IsConst>`: a contiguous random-access
iterator.  The C++ class stores a single raw pointer `ptr_`; here the
pointer is modelled as storage memory plus an address into it.  `IsConst`
is a phantom flag, as in the source, and does not affect behaviour. -/
structure array_iterator (T : Type) (IsConst : Bool) where
  mem : Int → T
  ptr_ : Int

namespace array_iterator

variable {T : Type} {c : Bool}

/-- `operator*`: `return *ptr_;` -/
def deref (it : array_iterator T c) : T := it.mem it.ptr_

/-- `operator[](n)`: `return ptr_[n];` -/
def subscript (it : array_iterator T c) (n : Int) : T := it.mem (it.ptr_ + n)

/-- Pre-increment `operator++`: `++ptr_;` -/
def inc (it : array_iterator T c) : array_iterator T c :=
  { it with ptr_ := it.ptr_ + 1 }

/-- Pre-decrement `operator--`: `--ptr_;` -/
def dec (it : array_iterator T c) : array_iterator T c :=
  { it with ptr_ := it.ptr_ - 1 }

/-- `operator+=(n)`: `ptr_ += n;` -/
def addAssign (it : array_iterator T c) (n : Int) : array_iterator T c :=
  { it with ptr_ := it.ptr_ + n }

/-- `operator-=(n)`: `ptr_ -= n;` -/
def subAssign (it : array_iterator T c) (n : Int) : array_iterator T c :=
  { it with ptr_ := it.ptr_ - n }

/-- `operator+(it, n)`: `it += n; return it;` -/
def add (it : array_iterator T c) (n : Int) : array_iterator T c :=
  addAssign it n

/-- `operator-(it, n)`: `it -= n; return it;` -/
def sub (it : array_iterator T c) (n : Int) : array_iterator T c :=
  subAssign it n

/-- `operator-(a, b)`: `return a.ptr_ - b.ptr_;` -/
def diff (a b : array_iterator T c) : Int := a.ptr_ - b.ptr_

/-- `operator==(a, b)`: `return a.ptr_ == b.ptr_;` -/
def iterEq (a b : array_iterator T c) : Bool := a.ptr_ == b.ptr_

/-- `operator<=>(a, b)`: `return a.ptr_ <=> b.ptr_;` -/
def cmp (a b : array_iterator T c) : Ordering := intCompare a.ptr_ b.ptr_

/-- `a < b`, as C++ rewrites it from `<=>`: `(a <=> b) < 0`. -/
def lt (a b : array_iterator T c) : Bool := cmp a b == Ordering.lt

/-- `a > b`, as C++ rewrites it from `<=>`: `(a <=> b) > 0`. -/
def gt (a b : array_iterator T c) : Bool := cmp a b == Ordering.gt

/-- `base()`: `return ptr_;` (the raw pointer, i.e. the address). -/
def base (it : array_iterator T c) : Int := it.ptr_

end array_iterator

/-- The cursor operations `stlish::reverse_iterator<Iter>` requires of the
wrapped iterator type `Iter`: pre-increment, pre-decrement, `+=`, `-=`,
difference, dereference, `==` and `<=>`. -/
class Cursor (Iter : Type) (T : outParam Type) where
  succ : Iter → Iter
  pred : Iter → Iter
  addAssign : Iter → Int → Iter
  subAssign : Iter → Int → Iter
  diff : Iter → Iter → Int
  deref : Iter → T
  ceq : Iter → Iter → Bool
  ccmp : Iter → Iter → Ordering

instance {T : Type} {c : Bool} : Cursor (array_iterator T c) T where
  succ := array_iterator.inc
  pred := array_iterator.dec
  addAssign := array_iterator.addAssign
  subAssign := array_iterator.subAssign
  diff := array_iterator.diff
  deref := array_iterator.deref
  ceq := array_iterator.iterEq
  ccmp := array_iterator.cmp

/-- `stlish::reverse_iterator<Iter>`: generic reverse adapter holding the
underlying iterator `current_`. -/
structure reverse_iterator (Iter : Type) where
  current_ : Iter

namespace reverse_iterator

variable {Iter T : Type} [Cursor Iter T]

/-- `base()`: `return current_;` -/
def base (r : reverse_iterator Iter) : Iter := r.current_

/-- `operator*`: `Iter tmp = current_; --tmp; return *tmp;` -/
def deref (r : reverse_iterator Iter) : T :=
  Cursor.deref (Cursor.pred r.current_)

/-- Pre-increment `operator++`: `--current_;` -/
def inc (r : reverse_iterator Iter) : reverse_iterator Iter :=
  ⟨Cursor.pred r.current_⟩

/-- Post-increment `operator++(int)`: `auto tmp = *this; --current_;
return tmp;` — modelled as (returned value, new state). -/
def postInc (r : reverse_iterator Iter) :
    reverse_iterator Iter × reverse_iterator Iter :=
  (r, ⟨Cursor.pred r.current_⟩)

/-- Pre-decrement `operator--`: `++current_;` -/
def dec (r : reverse_iterator Iter) : reverse_iterator Iter :=
  ⟨Cursor.succ r.current_⟩

/-- Post-decrement `operator--(int)`: `auto tmp = *this; ++current_;
return tmp;` — modelled as (returned value, new state). -/
def postDec (r : reverse_iterator Iter) :
    reverse_iterator Iter × reverse_iterator Iter :=
  (r, ⟨Cursor.succ r.current_⟩)

/-- `operator+=(n)`: `current_ -= n;` -/
def addAssign (r : reverse_iterator Iter) (n : Int) : reverse_iterator Iter :=
  ⟨Cursor.subAssign r.current_ n⟩

/-- `operator-=(n)`: `current_ += n;` -/
def subAssign (r : reverse_iterator Iter) (n : Int) : reverse_iterator Iter :=
  ⟨Cursor.addAssign r.current_ n⟩

/-- `operator+(it, n)`: `it += n; return it;` -/
def add (r : reverse_iterator Iter) (n : Int) : reverse_iterator Iter :=
  addAssign r n

/-- `operator-(it, n)`: `it -= n; return it;` -/
def sub (r : reverse_iterator Iter) (n : Int) : reverse_iterator Iter :=
  subAssign r n

/-- `operator[](n)`: `return *(*this + n);` -/
def subscript (r : reverse_iterator Iter) (n : Int) : T :=
  deref (add r n)

/-- `operator-(a, b)`: `return b.current_ - a.current_;` (operands swapped). -/
def diff (a b : reverse_iterator Iter) : Int :=
  Cursor.diff b.current_ a.current_

/-- `operator==(a, b)`: `return a.current_ == b.base();` -/
def req (a b : reverse_iterator Iter) : Bool :=
  Cursor.ceq a.current_ b.current_

/-- `operator<=>(a, b)`: `return b.base() <=> a.current_;` (flipped). -/
def rcmp (a b : reverse_iterator Iter) : Ordering :=
  Cursor.ccmp b.current_ a.current_

/-- `a < b` for reverse iterators, as C++ rewrites it from `<=>`. -/
def rlt (a b : reverse_iterator Iter) : Bool := rcmp a b == Ordering.lt

end reverse_iterator

/-- `reverse_iterator` itself satisfies the cursor contract, so it can be
wrapped again (reverse-of-reverse), exactly as the C++ template allows. -/
instance {Iter T : Type} [Cursor Iter T] : Cursor (reverse_iterator Iter) T where
  succ := reverse_iterator.inc
  pred := reverse_iterator.dec
  addAssign := reverse_iterator.addAssign
  subAssign := reverse_iterator.subAssign
  diff := reverse_iterator.diff
  deref := reverse_iterator.deref
  ceq := reverse_iterator.req
  ccmp := reverse_iterator.rcmp

/-- `stlish::make_reverse_iterator(it)`. -/
def make_reverse_iterator {Iter : Type} (it : Iter) : reverse_iterator Iter :=
  ⟨it⟩

/-- A single store `m[i] = v` into a storage block. -/
def write {T : Type} (m : Int → T) (i : Int) (v : T) : Int → T :=
  fun j => if j = i then v else m j

/-- `stlish::array<T, N>`: the storage block `_data`.  Offsets `0..N-1`
hold the N elements; the rest of the function is the surrounding memory,
which no member function touches. -/
structure array (T : Type) (N : Nat) where
  _data : Int → T

/-- The loop of `fill`: `for (i = 0; i < n; ++i) _data[i] = value;`,
writing indices `0..n-1` in increasing order. -/
def fillLoop {T : Type} (m : Int → T) (v : T) : Nat → (Int → T)
  | 0 => m
  | k + 1 => write (fillLoop m v k) (k : Int) v

/-- The loop of `swap`: `for (i = 0; i < n; ++i)
std::swap(_data[i], other._data[i]);` on the pair of storage blocks. -/
def swapLoop {T : Type} (p : (Int → T) × (Int → T)) :
    Nat → (Int → T) × (Int → T)
  | 0 => p
  | k + 1 =>
    let q := swapLoop p k
    (write q.1 (k : Int) (q.2 (k : Int)), write q.2 (k : Int) (q.1 (k : Int)))

namespace array

variable {T : Type} {N : Nat}

/-- `size()`: `return N;` -/
def size (_a : array T N) : Nat := N

/-- `max_size()`: `return N;` -/
def max_size (_a : array T N) : Nat := N

/-- `empty()`: `return N == 0;` -/
def empty (_a : array T N) : Bool := N == 0

/-- Unchecked `operator[](pos)`: `return _data[pos];` -/
def get (a : array T N) (pos : Nat) : T := a._data (pos : Int)

/-- Checked `at(pos)`: `if (pos >= N) throw std::out_of_range(...);
return _data[pos];` (named `at_` because `at` is reserved in Lean). -/
def at_ (a : array T N) (pos : Nat) : Except String T :=
  if pos ≥ N then Except.error "stlish::array::at: index out of range"
  else Except.ok (a._data (pos : Int))

/-- `begin()`: `return iterator{_data};` — address 0 of the storage. -/
def begin (a : array T N) : array_iterator T false := ⟨a._data, 0⟩

/-- `end()`: `return iterator{_data + N};` (named `end_` because `end` is
reserved in Lean). -/
def end_ (a : array T N) : array_iterator T false := ⟨a._data, (N : Int)⟩

/-- `rbegin()`: `return reverse_iterator{end()};` -/
def rbegin (a : array T N) : reverse_iterator (array_iterator T false) :=
  ⟨a.end_⟩

/-- `rend()`: `return reverse_iterator{begin()};` -/
def rend (a : array T N) : reverse_iterator (array_iterator T false) :=
  ⟨a.begin⟩

/-- `fill(value)`. -/
def fill (a : array T N) (v : T) : array T N := ⟨fillLoop a._data v N⟩

/-- Member `swap(other)`, element-wise; modelled as returning the pair of
post-states of `*this` and `other`. -/
def swap (a other : array T N) : array T N × array T N :=
  let r := swapLoop (a._data, other._data) N
  (⟨r.1⟩, ⟨r.2⟩)

/-- Build a concrete array from a list of its N elements (aggregate
initialisation); memory outside the block is a default value. -/
def ofList {T : Type} (dflt : T) (l : List T) : array T l.length :=
  ⟨fun i => if i < 0 then dflt else l.getD i.toNat dflt⟩

end array

/-- Free `swap(lhs, rhs)`: `lhs.swap(rhs);` -/
def swapFree {T : Type} {N : Nat} (lhs rhs : array T N) :
    array T N × array T N :=
  array.swap lhs rhs

/-- The loop of `std::equal(first1, last1, first2)` over `k` remaining
elements, comparing with `T::operator==`. -/
def equalRange {T : Type} [BEq T] (a b : Int → T) (i : Int) : Nat → Bool
  | 0 => true
  | k + 1 => a i == b i && equalRange a b (i + 1) k

/-- Non-member `operator==`: `std::equal(lhs.begin(), lhs.end(),
rhs.begin());` -/
def arrayEq {T : Type} {N : Nat} [BEq T] (lhs rhs : array T N) : Bool :=
  equalRange lhs._data rhs._data 0 N

/-- `std::lexicographical_compare_three_way` on two ranges of `m` and `n`
remaining elements starting at offset `i`, with comparison `comp`:
walk left to right while both ranges are nonempty and the pair compares
equal; the first non-equal pair decides; otherwise the shorter range is
smaller. -/
def lexCompareThreeWay {T : Type} (comp : T → T → Ordering)
    (a b : Int → T) (i : Int) : Nat → Nat → Ordering
  | 0, 0 => Ordering.eq
  | 0, _ + 1 => Ordering.lt
  | _ + 1, 0 => Ordering.gt
  | m + 1, n + 1 =>
    match comp (a i) (b i) with
    | Ordering.eq => lexCompareThreeWay comp a b (i + 1) m n
    | o => o

/-- Non-member `operator<=>`: `std::lexicographical_compare_three_way(
lhs.begin(), lhs.end(), rhs.begin(), rhs.end());` — both ranges have
length N. -/
def arrayCompare {T : Type} {N : Nat} (comp : T → T → Ordering)
    (lhs rhs : array T N) : Ordering :=
  lexCompareThreeWay comp lhs._data rhs._data 0 N N

end stlish

namespace stlish

/-! ### Helper lemmas about the loop models -/

theorem fillLoop_apply {T : Type} (m : Int → T) (v : T) (k : Nat) (j : Int) :
    fillLoop m v k j = if 0 ≤ j ∧ j < (k : Int) then v else m j := by
  induction k with
  | zero =>
    simp only [fillLoop]
    rw [if_neg (by omega)]
  | succ k ih =>
    simp only [fillLoop, write, ih]
    by_cases h : j = (k : Int)
    · rw [if_pos h, if_pos (by omega)]
    · rw [if_neg h]
      by_cases h2 : 0 ≤ j ∧ j < (k : Int)
      · rw [if_pos h2, if_pos (by omega)]
      · rw [if_neg h2, if_neg (by omega)]

theorem swapLoop_apply {T : Type} (a0 b0 : Int → T) (k : Nat) (j : Int) :
    (swapLoop (a0, b0) k).1 j = (if 0 ≤ j ∧ j < (k : Int) then b0 j else a0 j)
    ∧ (swapLoop (a0, b0) k).2 j = (if 0 ≤ j ∧ j < (k : Int) then a0 j else b0 j) := by
  induction k generalizing j with
  | zero =>
    simp only [swapLoop]
    rw [if_neg (by omega), if_neg (by omega)]
    exact ⟨rfl, rfl⟩
  | succ k ih =>
    have hk1 : (swapLoop (a0, b0) k).1 (k : Int) = a0 (k : Int) := by
      rw [(ih (k : Int)).1, if_neg (by omega)]
    have hk2 : (swapLoop (a0, b0) k).2 (k : Int) = b0 (k : Int) := by
      rw [(ih (k : Int)).2, if_neg (by omega)]
    simp only [swapLoop, write]
    constructor
    · by_cases h : j = (k : Int)
      · rw [if_pos h, if_pos (by omega), hk2, h]
      · rw [if_neg h, (ih j).1]
        by_cases h2 : 0 ≤ j ∧ j < (k : Int)
        · rw [if_pos h2, if_pos (by omega)]
        · rw [if_neg h2, if_neg (by omega)]
    · by_cases h : j = (k : Int)
      · rw [if_pos h, if_pos (by omega), hk1, h]
      · rw [if_neg h, (ih j).2]
        by_cases h2 : 0 ≤ j ∧ j < (k : Int)
        · rw [if_pos h2, if_pos (by omega)]
        · rw [if_neg h2, if_neg (by omega)]

theorem equalRange_iff {T : Type} [BEq T] [LawfulBEq T]
    (a b : Int → T) (k : Nat) (i : Int) :
    equalRange a b i k = true ↔ ∀ d : Nat, d < k → a (i + d) = b (i + d) := by
  induction k generalizing i with
  | zero => simp [equalRange]
  | succ k ih =>
    simp only [equalRange, Bool.and_eq_true, beq_iff_eq, ih]
    constructor
    · rintro ⟨h0, hrest⟩ d hd
      match d with
      | 0 => simpa using h0
      | d + 1 =>
        have := hrest d (by omega)
        have he : i + 1 + (d : Int) = i + ((d + 1 : Nat) : Int) := by push_cast; ring
        rwa [he] at this
    · intro h
      refine ⟨by simpa using h 0 (by omega), fun d hd => ?_⟩
      have := h (d + 1) (by omega)
      have he : i + 1 + (d : Int) = i + ((d + 1 : Nat) : Int) := by push_cast; ring
      rwa [he]

theorem lexCompareThreeWay_first_diff {T : Type} (comp : T → T → Ordering)
    (a b : Int → T) (k : Nat) (i : Int) (d : Nat) (hd : d < k)
    (hpre : ∀ e : Nat, e < d → comp (a (i + e)) (b (i + e)) = Ordering.eq)
    (hne : comp (a (i + d)) (b (i + d)) ≠ Ordering.eq) :
    lexCompareThreeWay comp a b i k k = comp (a (i + d)) (b (i + d)) := by
  induction k generalizing i d with
  | zero => omega
  | succ k ih =>
    match d with
    | 0 =>
      simp only [lexCompareThreeWay]
      have : i + ((0 : Nat) : Int) = i := by push_cast; ring
      rw [this] at hne ⊢
      cases h : comp (a i) (b i) with
      | eq => exact absurd h hne
      | lt => rfl
      | gt => rfl
    | d + 1 =>
      have h0 : comp (a i) (b i) = Ordering.eq := by
        have := hpre 0 (by omega)
        simpa using this
      simp only [lexCompareThreeWay, h0]
      have he : ∀ e : Nat, i + 1 + (e : Int) = i + ((e + 1 : Nat) : Int) := by
        intro e; push_cast; ring
      have hpre' : ∀ e : Nat, e < d → comp (a (i + 1 + e)) (b (i + 1 + e)) = Ordering.eq := by
        intro e hlt
        rw [he e]
        exact hpre (e + 1) (by omega)
      have hne' : comp (a (i + 1 + d)) (b (i + 1 + d)) ≠ Ordering.eq := by
        rw [he d]; exact hne
      rw [ih (i + 1) d (by omega) hpre' hne', he d]

theorem intCompare_flip (x y : Int) :
    (intCompare x y == Ordering.lt) = (intCompare y x == Ordering.gt) := by
  unfold intCompare
  by_cases h1 : x < y
  · rw [if_pos h1, if_neg (by omega), if_neg (by omega)]
    rfl
  · by_cases h2 : x = y
    · rw [if_neg h1, if_pos h2, if_neg (by omega), if_pos (by omega)]
      rfl
    · rw [if_neg h1, if_neg h2, if_pos (by omega)]
      rfl

end stlish

namespace stlish

/-- Two arrays with equal storage are equal. -/
theorem array_data_ext {T : Type} {N : Nat} {a b : array T N}
    (h : a._data = b._data) : a = b :=
  congrArg array.mk h

/-! ### Claims -/

/-- C1: dereferencing the reverse adapter constructed from an underlying
iterator `u` returns the element obtained by retreating `u` one position,
`*reverse_iterator(u) == *(u - 1)`; in particular, for every array with
`N > 0`, `*rbegin()` equals the element at index `N - 1`. -/
theorem C1_reverse_adapter_deref {T : Type} {c : Bool} {N : Nat}
    (u : array_iterator T c) (arr : array T N) (h : 0 < N) :
    reverse_iterator.deref (make_reverse_iterator u)
      = array_iterator.deref (array_iterator.sub u 1)
    ∧ reverse_iterator.deref arr.rbegin = arr.get (N - 1) := by
  refine ⟨rfl, ?_⟩
  show arr._data ((N : Int) - 1) = arr._data ((N - 1 : Nat) : Int)
  congr 1
  omega

theorem C1_reverse_adapter_deref_witness :
    reverse_iterator.deref ((array.ofList (0 : Int) [1, 2, 3]).rbegin)
        = (array.ofList (0 : Int) [1, 2, 3]).get 2
    ∧ (array.ofList (0 : Int) [1, 2, 3]).get 2 = 3 :=
  ⟨(C1_reverse_adapter_deref (array.ofList (0 : Int) [1, 2, 3]).begin
      (array.ofList (0 : Int) [1, 2, 3]) (by decide)).2,
   by decide⟩

/-- C2: advancing a reverse adapter moves its underlying iterator in the
opposite direction: `(r + n).base() == r.base() - n`,
`(r - n).base() == r.base() + n`, pre/post-increment decrement the
underlying iterator by one, and pre/post-decrement increment it by one. -/
theorem C2_reverse_adapter_arithmetic {T : Type} {c : Bool}
    (r : reverse_iterator (array_iterator T c)) (n : Int) :
    (reverse_iterator.add r n).base = array_iterator.sub r.base n
    ∧ (reverse_iterator.sub r n).base = array_iterator.add r.base n
    ∧ (reverse_iterator.inc r).base = array_iterator.dec r.base
    ∧ ((reverse_iterator.postInc r).2).base = array_iterator.dec r.base
    ∧ (reverse_iterator.postInc r).1 = r
    ∧ (reverse_iterator.dec r).base = array_iterator.inc r.base
    ∧ ((reverse_iterator.postDec r).2).base = array_iterator.inc r.base
    ∧ (reverse_iterator.postDec r).1 = r :=
  ⟨rfl, rfl, rfl, rfl, rfl, rfl, rfl, rfl⟩

/-- C3: the difference of two reverse adapters swaps the operands of the
underlying subtraction, `a - b == b.base() - a.base()`; consequently for
every array of size N, `rend() - rbegin() == N`. -/
theorem C3_reverse_adapter_difference {T : Type} {c : Bool} {N : Nat}
    (a b : reverse_iterator (array_iterator T c)) (arr : array T N) :
    reverse_iterator.diff a b = array_iterator.diff b.base a.base
    ∧ reverse_iterator.diff arr.rend arr.rbegin = (N : Int) := by
  refine ⟨rfl, ?_⟩
  show (N : Int) - 0 = (N : Int)
  omega

/-- C4: ordering of reverse adapters is inverted relative to the underlying
iterators: `a < b` iff `a.base() > b.base()`, and `a == b` iff
`a.base() == b.base()`. -/
theorem C4_reverse_adapter_ordering {T : Type} {c : Bool}
    (a b : reverse_iterator (array_iterator T c)) :
    reverse_iterator.req a b = array_iterator.iterEq a.base b.base
    ∧ reverse_iterator.rlt a b = array_iterator.gt a.base b.base := by
  refine ⟨rfl, ?_⟩
  show (intCompare b.base.ptr_ a.base.ptr_ == Ordering.lt)
      = (intCompare a.base.ptr_ b.base.ptr_ == Ordering.gt)
  exact intCompare_flip _ _

/-- C5: checked access `at(i)` fails with an out-of-range error carrying a
descriptive message iff `i >= N` (so for `N == 0` it fails for every `i`,
including 0), and for every `i < N` it succeeds and returns the same
element as unchecked `operator[](i)`. -/
theorem C5_checked_access {T : Type} {N : Nat}
    (arr : array T N) (pos : Nat) (h : pos < N) :
    (∀ q : Nat,
      arr.at_ q = Except.error "stlish::array::at: index out of range"
        ↔ N ≤ q)
    ∧ arr.at_ pos = Except.ok (arr.get pos)
    ∧ (∀ (arr0 : array T 0) (q : Nat),
        arr0.at_ q = Except.error "stlish::array::at: index out of range") := by
  refine ⟨?_, ?_, ?_⟩
  · intro q
    unfold array.at_
    by_cases hq : N ≤ q
    · simp [hq]
    · simp [hq]
  · unfold array.at_ array.get
    rw [if_neg (by omega)]
  · intro arr0 q
    unfold array.at_
    rw [if_pos (by omega)]

theorem C5_checked_access_witness :
    (array.ofList (0 : Int) [1, 2, 3]).at_ 1
      = Except.ok ((array.ofList (0 : Int) [1, 2, 3]).get 1) :=
  (C5_checked_access (array.ofList (0 : Int) [1, 2, 3]) 1 (by decide)).2.1

/-- C6: for every array of size N, `end() - begin() == N`; for every
`k < N`, `*(begin() + k)` is the element stored at index k; and for
`N == 0`, `begin() == end()`. -/
theorem C6_forward_range {T : Type} {N : Nat} (arr : array T N) (k : Nat)
    (h : k < N) :
    array_iterator.diff arr.end_ arr.begin = (N : Int)
    ∧ array_iterator.deref (array_iterator.add arr.begin (k : Int)) = arr.get k
    ∧ (∀ arr0 : array T 0, array_iterator.iterEq arr0.begin arr0.end_ = true) := by
  refine ⟨?_, ?_, ?_⟩
  · show (N : Int) - 0 = (N : Int)
    omega
  · show arr._data (0 + (k : Int)) = arr._data (k : Int)
    congr 1
    omega
  · intro arr0
    rfl

theorem C6_forward_range_witness :
    array_iterator.deref
        (array_iterator.add (array.ofList (0 : Int) [1, 2, 3]).begin
          ((1 : Nat) : Int))
      = (array.ofList (0 : Int) [1, 2, 3]).get 1 :=
  (C6_forward_range (array.ofList (0 : Int) [1, 2, 3]) 1 (by decide)).2.1

/-- C7: after `swap(a, b)` (member or free function), for every valid index
i the new `a[i]` equals the old `b[i]` and the new `b[i]` equals the old
`a[i]`; self-swap `swap(a, a)` leaves `a` observably unchanged. -/
theorem C7_swap_exchanges {T : Type} {N : Nat}
    (a b : array T N) (i : Nat) (h : i < N) :
    (a.swap b).1.get i = b.get i
    ∧ (a.swap b).2.get i = a.get i
    ∧ a.swap a = (a, a)
    ∧ swapFree a b = a.swap b := by
  refine ⟨?_, ?_, ?_, rfl⟩
  · show (swapLoop (a._data, b._data) N).1 (i : Int) = b._data (i : Int)
    rw [(swapLoop_apply a._data b._data N (i : Int)).1, if_pos (by omega)]
  · show (swapLoop (a._data, b._data) N).2 (i : Int) = a._data (i : Int)
    rw [(swapLoop_apply a._data b._data N (i : Int)).2, if_pos (by omega)]
  · have e1 : (a.swap a).1 = a := by
      apply array_data_ext
      funext j
      show (swapLoop (a._data, a._data) N).1 j = a._data j
      rw [(swapLoop_apply a._data a._data N j).1, ite_self]
    have e2 : (a.swap a).2 = a := by
      apply array_data_ext
      funext j
      show (swapLoop (a._data, a._data) N).2 j = a._data j
      rw [(swapLoop_apply a._data a._data N j).2, ite_self]
    calc a.swap a = ((a.swap a).1, (a.swap a).2) := rfl
    _ = (a, a) := by rw [e1, e2]

theorem C7_swap_exchanges_witness :
    ((array.ofList (0 : Int) [1, 2]).swap (array.ofList (0 : Int) [5, 6])).1.get 0
        = (array.ofList (0 : Int) [5, 6]).get 0
    ∧ (array.ofList (0 : Int) [5, 6]).get 0 = 5 :=
  ⟨(C7_swap_exchanges (array.ofList (0 : Int) [1, 2])
      (array.ofList (0 : Int) [5, 6]) 0 (by decide)).1,
   by decide⟩

/-- C8: three-way comparison of two same-size arrays is lexicographic over
element pairs left to right and decided by the first unequal pair (so
`{1,2,3} < {1,2,4}` and `{0,9,9} < {1,0,0}`), equality holds iff every
corresponding pair of elements is equal, and two empty arrays always
compare equal. -/
theorem C8_lexicographic_comparison {T : Type} {N : Nat} [BEq T] [LawfulBEq T]
    (comp : T → T → Ordering) (x y : array T N) (i : Nat) (hi : i < N)
    (hpre : ∀ j : Nat, j < i → comp (x.get j) (y.get j) = Ordering.eq)
    (hne : comp (x.get i) (y.get i) ≠ Ordering.eq) :
    arrayCompare comp x y = comp (x.get i) (y.get i)
    ∧ (arrayEq x y = true ↔ ∀ k : Nat, k < N → x.get k = y.get k)
    ∧ (∀ x0 y0 : array T 0,
        arrayCompare comp x0 y0 = Ordering.eq ∧ arrayEq x0 y0 = true)
    ∧ arrayCompare intCompare (array.ofList (0 : Int) [1, 2, 3])
        (array.ofList (0 : Int) [1, 2, 4]) = Ordering.lt
    ∧ arrayCompare intCompare (array.ofList (0 : Int) [0, 9, 9])
        (array.ofList (0 : Int) [1, 0, 0]) = Ordering.lt := by
  refine ⟨?_, ?_, ?_, by decide, by decide⟩
  · have key := lexCompareThreeWay_first_diff comp x._data y._data N 0 i hi
      (fun e he => by simpa [array.get] using hpre e he)
      (by simpa [array.get] using hne)
    simpa [arrayCompare, array.get] using key
  · unfold arrayEq
    rw [equalRange_iff]
    constructor
    · intro hall k hk
      simpa [array.get] using hall k hk
    · intro hall d hd
      simpa [array.get] using hall d hd
  · intro x0 y0
    exact ⟨rfl, rfl⟩

theorem C8_lexicographic_comparison_witness :
    arrayCompare intCompare (array.ofList (0 : Int) [1, 2, 3])
        (array.ofList (0 : Int) [1, 2, 4])
      = intCompare ((array.ofList (0 : Int) [1, 2, 3]).get 2)
          ((array.ofList (0 : Int) [1, 2, 4]).get 2) :=
  (C8_lexicographic_comparison intCompare (array.ofList (0 : Int) [1, 2, 3])
    (array.ofList (0 : Int) [1, 2, 4]) 2 (by decide) (by decide) (by decide)).1

/-- C9: `fill(v)` assigns v to every slot, so afterwards every element
equals v regardless of prior contents; hence `fill(v)` twice leaves the
array identical to a single `fill(v)`. -/
theorem C9_fill {T : Type} {N : Nat} (a : array T N) (v : T) (i : Nat)
    (h : i < N) :
    (a.fill v).get i = v ∧ (a.fill v).fill v = a.fill v := by
  constructor
  · show fillLoop a._data v N (i : Int) = v
    rw [fillLoop_apply, if_pos (by omega)]
  · apply array_data_ext
    funext j
    show fillLoop (fillLoop a._data v N) v N j = fillLoop a._data v N j
    rw [fillLoop_apply, fillLoop_apply]
    by_cases hc : 0 ≤ j ∧ j < (N : Int)
    · simp only [if_pos hc]
    · simp only [if_neg hc]

theorem C9_fill_witness :
    ((array.ofList (0 : Int) [1, 2, 3]).fill 7).get 1 = 7 :=
  (C9_fill (array.ofList (0 : Int) [1, 2, 3]) 7 1 (by decide)).1

/-- C10: wrapping an iterator in the reverse adapter twice yields a view
equivalent to the original forward iterator: same dereference, the double
`base()` returns the original iterator, and advancing the doubly-wrapped
adapter by n advances the innermost base by n. -/
theorem C10_double_reverse {T : Type} {c : Bool}
    (it : array_iterator T c) (n : Int) :
    reverse_iterator.deref (make_reverse_iterator (make_reverse_iterator it))
      = array_iterator.deref it
    ∧ ((make_reverse_iterator (make_reverse_iterator it)).base).base = it
    ∧ ((reverse_iterator.add
          (make_reverse_iterator (make_reverse_iterator it)) n).base).base
      = array_iterator.add it n := by
  refine ⟨?_, rfl, rfl⟩
  show it.mem (it.ptr_ + 1 - 1) = it.mem it.ptr_
  congr 1
  omega

end stlish
